import Mathlib

/-!
Verification of the virtualization engine of the react-virtual repository.

The development shallowly embeds the core of
`src/packages/react-virtual/src/index.ts` (with the secondary variant
`src/src/index.js` agreeing on the shared parts):

* `Measurement` / `measurements` — the derived span sequence
  (useVirtual's `measurements` memo; full recomputation, i.e. the loop with
  an empty `pendingMeasuredCacheIndexesRef`, which is also exactly the
  secondary variant's loop).
* `totalSize` — the reported total extent.
* `findNearestBinarySearch`, `calculateRange` — the range locator.
* `scrollToOffset`, `tryScrollToIndex` — the imperative scroll-to paths,
  modelled as pure functions returning the offset/reason handed to the
  scroll setter (`none` = no scroll write).
* `measureRef` — the per-item measurement hook, modelled as a state
  transition on `VirtualState`.
* `parentOffset`, `windowOnScrollOffset`, `windowScrollToFn` — the window
  scroll-source adapter's coordinate translation.

JavaScript numbers are modelled as `ℚ`; the binary search's `low`/`high`
are modelled as `ℤ` because `high` starts at `measurements.length - 1`,
which is `-1` for an empty list; `((low + high) / 2) | 0` truncates toward
zero, i.e. `Int.tdiv`.
-/

/-- Bounds for the truncated midpoint `((low + high) / 2) | 0` used by the
binary search: it stays inside `[low, high]`. -/
theorem tdiv2_bounds (low high : Int) (h : low ≤ high) :
    low ≤ Int.tdiv (low + high) 2 ∧ Int.tdiv (low + high) 2 ≤ high := by
  rcases le_or_lt 0 (low + high) with hs | hs
  · rw [Int.tdiv_eq_ediv hs (by norm_num)]
    omega
  · have h1 : Int.tdiv (low + high) 2 = - Int.tdiv (-(low + high)) 2 := by
      rw [Int.neg_tdiv, neg_neg]
    have h2 : Int.tdiv (-(low + high)) 2 = (-(low + high)) / 2 :=
      Int.tdiv_eq_ediv (by omega) (by norm_num)
    rw [h1, h2]
    omega

/-- One item's derived geometry (interface `Measurement` of the source). -/
structure Measurement (κ : Type) where
  key : κ
  index : Nat
  start : ℚ
  size : ℚ
  «end» : ℚ
deriving DecidableEq

instance [Inhabited κ] : Inhabited (Measurement κ) := ⟨⟨default, 0, 0, 0, 0⟩⟩

/-- The `measurements` memo of `useVirtual` (full recomputation, `min = 0`):
for `i` from `0` to `size - 1` it appends the span whose `start` is the
previous span's `end` (the array holds exactly `i` elements at step `i`, so
`measurements[i - 1]` is its last element) or `paddingStart` for `i = 0`,
whose `size` is the measured-cache entry under `keyExtractor i` when that
entry is a number and `estimateSize i` otherwise, and whose `end` is
`start + size`. -/
def measurements (estimateSize : Nat → ℚ) (keyExtractor : Nat → κ)
    (measuredCache : κ → Option ℚ) (paddingStart : ℚ) : Nat → List (Measurement κ)
  | 0 => []
  | i + 1 =>
    let ms := measurements estimateSize keyExtractor measuredCache paddingStart i
    let key := keyExtractor i
    let measuredSize := measuredCache key
    let start :=
      match ms.getLast? with
      | some prev => prev.«end»
      | none => paddingStart
    let size :=
      match measuredSize with
      | some m => m
      | none => estimateSize i
    ms ++ [{ index := i, start := start, size := size, «end» := start + size, key := key }]

/-- `totalSize = (measurements[size - 1]?.end || 0) + paddingEnd`.
For `size = 0` the Nat subtraction gives index `0` of the empty list, hence
`none`, matching the out-of-bounds access of the source; `end || 0` agrees
with the `Option` match because `0 || 0` is `0` as well. -/
def totalSize (ms : List (Measurement κ)) (size : Nat) (paddingEnd : ℚ) : ℚ :=
  (match ms[size - 1]? with
   | some m => m.«end»
   | none => 0) + paddingEnd

/-- `findNearestBinarySearch(low, high, getCurrentValue, value)` of the
source, with `middle = ((low + high) / 2) | 0` as truncating division. -/
def findNearestBinarySearch (low high : Int) (getCurrentValue : Int → ℚ)
    (value : ℚ) : Int :=
  if h : low ≤ high then
    let middle := Int.tdiv (low + high) 2
    let currentValue := getCurrentValue middle
    if currentValue < value then
      findNearestBinarySearch (middle + 1) high getCurrentValue value
    else if value < currentValue then
      findNearestBinarySearch low (middle - 1) getCurrentValue value
    else
      middle
  else if 0 < low then
    low - 1
  else
    0
termination_by (high + 1 - low).toNat
decreasing_by
  · have := tdiv2_bounds low high h
    omega
  · have := tdiv2_bounds low high h
    omega

/-- `calculateRange`'s closure `getOffset = (index) => measurements[index]!.start`. -/
def getOffset [Inhabited κ] (measurements : List (Measurement κ)) (index : Int) : ℚ :=
  (measurements.getD index.toNat default).start

/-- The `while (end < size && measurements[end]!.end < scrollOffset + outerSize)
end++` loop of `calculateRange`, with `limit = scrollOffset + outerSize`. -/
def advanceEnd [Inhabited κ] (measurements : List (Measurement κ)) (limit : ℚ)
    (size e : Nat) : Nat :=
  if h : e < size ∧ (measurements.getD e default).«end» < limit then
    advanceEnd measurements limit size (e + 1)
  else
    e
termination_by size - e
decreasing_by omega

/-- `calculateRange({measurements, outerSize, scrollOffset})` of the source.
`size = measurements.length - 1` is `-1` in JavaScript for an empty list; the
binary search receives the `ℤ` value, while the while loop's `Nat` bound `0`
yields the same (empty) behaviour as a `-1` bound. -/
def calculateRange [Inhabited κ] (measurements : List (Measurement κ))
    (outerSize scrollOffset : ℚ) : Nat × Nat :=
  let size := measurements.length - 1
  let start := (findNearestBinarySearch 0 ((measurements.length : Int) - 1)
      (getOffset measurements) scrollOffset).toNat
  (start, advanceEnd measurements (scrollOffset + outerSize) size start)

/-- `type ScrollAlignment = 'start' | 'center' | 'end' | 'auto'`. -/
inductive ScrollAlignment where
  | start
  | center
  | «end»
  | auto
deriving DecidableEq

/-- `type ScrollReason = 'ToIndex' | 'ToOffset' | 'SizeChanged'`. -/
inductive ScrollReason where
  | ToIndex
  | ToOffset
  | SizeChanged
deriving DecidableEq

/-- `scrollToOffset(toOffset, {align}, reason)` reading the snapshot
`{scrollOffset, outerSize}`; returns the `(offset, reason)` pair handed to
`scrollTo`, or `none` when no branch fires (unreachable after `auto`
resolution). -/
def scrollToOffset (toOffset : ℚ) (align : ScrollAlignment)
    (scrollOffset outerSize : ℚ) (reason : ScrollReason) : Option (ℚ × ScrollReason) :=
  let align :=
    if align = ScrollAlignment.auto then
      if toOffset ≤ scrollOffset then ScrollAlignment.start
      else if scrollOffset + outerSize ≤ toOffset then ScrollAlignment.«end»
      else ScrollAlignment.start
    else align
  if align = ScrollAlignment.start then some (toOffset, reason)
  else if align = ScrollAlignment.«end» then some (toOffset - outerSize, reason)
  else if align = ScrollAlignment.center then some (toOffset - outerSize / 2, reason)
  else none

/-- `tryScrollToIndex(index, {align})` reading the snapshot
`{measurements, scrollOffset, outerSize}` and the item count `size`:
clamps the index to `Math.max(0, Math.min(index, size - 1))` (a `ℤ`
computation since `size - 1` is `-1` for `size = 0`; the result is
nonnegative, so `toNat` is exact), silently returns when no measurement
exists there, resolves `auto` (already-visible spans also silently
return), computes the target offset from the span, and delegates to
`scrollToOffset` with reason `ToIndex`. -/
def tryScrollToIndex (index : Int) (align : ScrollAlignment)
    (measurements : List (Measurement κ)) (scrollOffset outerSize : ℚ)
    (size : Nat) : Option (ℚ × ScrollReason) :=
  match measurements[(max 0 (min index ((size : Int) - 1))).toNat]? with
  | none => none
  | some measurement =>
    let resolved :=
      if align = ScrollAlignment.auto then
        if scrollOffset + outerSize ≤ measurement.«end» then some ScrollAlignment.«end»
        else if measurement.start ≤ scrollOffset then some ScrollAlignment.start
        else none
      else some align
    match resolved with
    | none => none
    | some align =>
      let toOffset :=
        if align = ScrollAlignment.center then measurement.start + measurement.size / 2
        else if align = ScrollAlignment.«end» then measurement.«end»
        else measurement.start
      scrollToOffset toOffset align scrollOffset outerSize ScrollReason.ToIndex

/-- The mutable state touched by the measurement hook `measureRef`:
the measured cache, the pending measured indexes, the latest scroll offset
(`latestRef.current.scrollOffset`, read-only here), the adjusted offset
(`scrollOffsetWithAdjustmentsRef.current`) and the log of scroll-setter
invocations (`defaultScrollToFn` calls). -/
structure VirtualState (κ : Type) where
  measuredCache : κ → Option ℚ
  pendingMeasuredCacheIndexes : List Nat
  scrollOffset : ℚ
  scrollOffsetWithAdjustments : ℚ
  scrollWrites : List (ℚ × ScrollReason)

/-- The `measureRef` closure of item `item` at index `i`: `el` is `none` for
a null element and `some measuredSize` otherwise (`measuredSize =
measureSize(el, horizontal)`). When the measured size differs from
`item.size`: if `item.start < scrollOffset`, advance the adjusted offset by
`delta = measuredSize - item.size` and write it through the scroll setter
with reason `SizeChanged`; then push `i` to the pending indexes and record
the size in the cache under `item.key`. -/
def measureRef [DecidableEq κ] (item : Measurement κ) (i : Nat) (el : Option ℚ)
    (s : VirtualState κ) : VirtualState κ :=
  match el with
  | none => s
  | some measuredSize =>
    if measuredSize ≠ item.size then
      let s1 :=
        if item.start < s.scrollOffset then
          let delta := measuredSize - item.size
          let adjusted := s.scrollOffsetWithAdjustments + delta
          { s with
            scrollOffsetWithAdjustments := adjusted,
            scrollWrites := s.scrollWrites ++ [(adjusted, ScrollReason.SizeChanged)] }
        else s
      { s1 with
        pendingMeasuredCacheIndexes := s1.pendingMeasuredCacheIndexes ++ [i],
        measuredCache := fun k => if k = item.key then some measuredSize else s1.measuredCache k }
    else s

/-- `useWindowScroll`'s captured static offset:
`parentOffsetRef.current = element[scrollKey] + parentRect[rectKey]`
at (re)attachment. -/
def parentOffset (windowScrollPosition rectOffset : ℚ) : ℚ :=
  windowScrollPosition + rectOffset

/-- `useWindowScroll`'s `onScroll` reported offset:
`element[scrollKey] - parentOffsetRef.current`. -/
def windowOnScrollOffset (windowScrollPosition parentStaticOffset : ℚ) : ℚ :=
  windowScrollPosition - parentStaticOffset

/-- `useWindowScroll`'s `scrollToFn(offset, reason)`: the window is scrolled
to `offset + delta` where `delta` is the captured static offset exactly when
`['ToIndex', 'SizeChanged'].includes(reason)`, and `0` otherwise. -/
def windowScrollToFn (offset : ℚ) (reason : ScrollReason)
    (parentStaticOffset : ℚ) : ℚ :=
  let delta :=
    if reason ∈ [ScrollReason.ToIndex, ScrollReason.SizeChanged] then parentStaticOffset
    else 0
  offset + delta

section MeasurementStore

variable {κ : Type}

theorem measurements_length (e : Nat → ℚ) (k : Nat → κ) (c : κ → Option ℚ) (p : ℚ)
    (n : Nat) : (measurements e k c p n).length = n := by
  induction n with
  | zero => rfl
  | succ n ih => simp [measurements, ih]

theorem measurements_getElem?_lt (e : Nat → ℚ) (k : Nat → κ) (c : κ → Option ℚ) (p : ℚ)
    (n i : Nat) (hi : i < n) :
    (measurements e k c p (n + 1))[i]? = (measurements e k c p n)[i]? := by
  rw [show measurements e k c p (n + 1) = measurements e k c p n ++ _ from rfl]
  rw [List.getElem?_append_left]
  rw [measurements_length]
  exact hi

theorem measurements_getElem?_self (e : Nat → ℚ) (k : Nat → κ) (c : κ → Option ℚ)
    (p : ℚ) (i : Nat) :
    (measurements e k c p (i + 1))[i]?
      = some { index := i,
               start := (match (measurements e k c p i).getLast? with
                         | some prev => prev.«end»
                         | none => p),
               size := (match c (k i) with
                        | some m => m
                        | none => e i),
               «end» := (match (measurements e k c p i).getLast? with
                         | some prev => prev.«end»
                         | none => p)
                 + (match c (k i) with
                    | some m => m
                    | none => e i),
               key := k i } := by
  rw [show measurements e k c p (i + 1) = measurements e k c p i ++ _ from rfl]
  rw [List.getElem?_append_right (by rw [measurements_length])]
  rw [measurements_length]
  simp

theorem measurements_spans_ok (e : Nat → ℚ) (k : Nat → κ) (c : κ → Option ℚ)
    (p : ℚ) (N : Nat) :
    ∀ i sp, (measurements e k c p N)[i]? = some sp →
    sp.«end» = sp.start + sp.size
    ∧ (i = 0 → sp.start = p)
    ∧ ∀ j sp', i = j + 1 →
        (measurements e k c p N)[j]? = some sp' →
        sp.start = sp'.«end» := by
  induction N with
  | zero => intro i sp h; simp [measurements] at h
  | succ N ih =>
    intro i sp h
    have hlen : i < N + 1 := by
      obtain ⟨hl, -⟩ := List.getElem?_eq_some_iff.mp h
      rw [measurements_length] at hl
      exact hl
    rcases Nat.lt_or_ge i N with hiN | hiN
    · rw [measurements_getElem?_lt e k c p N i hiN] at h
      obtain ⟨h1, h2, h3⟩ := ih i sp h
      refine ⟨h1, h2, ?_⟩
      intro j sp' hij hj
      have hjN : j < N := by omega
      rw [measurements_getElem?_lt e k c p N j hjN] at hj
      exact h3 j sp' hij hj
    · have hiN' : i = N := by omega
      subst hiN'
      rw [measurements_getElem?_self e k c p i] at h
      obtain rfl := Option.some.inj h
      refine ⟨rfl, ?_, ?_⟩
      · intro hi0
        subst hi0
        simp [measurements]
      · intro j sp' hij hj
        have hjN : j < i := by omega
        rw [measurements_getElem?_lt e k c p i j hjN] at hj
        have hgl : (measurements e k c p i).getLast? = some sp' := by
          rw [List.getLast?_eq_getElem?]
          rw [measurements_length]
          have hj1 : i - 1 = j := by omega
          rw [hj1]
          exact hj
        simp only [hgl]

/-- C1: for every item count `N ≥ 0`, estimator, key function, `paddingStart`
and measured cache, the derived span sequence satisfies `Span[0].start =
paddingStart`, `Span[i].start = Span[i-1].end` for `i > 0`, and
`Span[i].end = Span[i].start + Span[i].size` for every `i < N`. -/
theorem measurements_span_invariants (e : Nat → ℚ) (k : Nat → κ) (c : κ → Option ℚ)
    (p : ℚ) (N : Nat) :
    ∀ i sp, (measurements e k c p N)[i]? = some sp →
    sp.«end» = sp.start + sp.size
    ∧ (i = 0 → sp.start = p)
    ∧ ∀ j sp', i = j + 1 →
        (measurements e k c p N)[j]? = some sp' →
        sp.start = sp'.«end» :=
  measurements_spans_ok e k c p N

/-- Witness for C1: `N = 2`, estimator `50`, empty cache, `paddingStart = 3`
at index `1`. -/
theorem measurements_span_invariants_app :
    (measurements (fun _ => (50 : ℚ)) (fun i : Nat => i) (fun _ => none) 3 2)[1]?
        = some { key := 1, index := 1, start := 53, size := 50, «end» := 103 }
    ∧ ((103 : ℚ) = 53 + 50
      ∧ ((1 : Nat) = 0 → (53 : ℚ) = 3)
      ∧ ∀ j sp', (1 : Nat) = j + 1 →
          (measurements (fun _ => (50 : ℚ)) (fun i : Nat => i) (fun _ => none) 3 2)[j]?
            = some sp' →
          (53 : ℚ) = sp'.«end») :=
  ⟨by norm_num [measurements],
   measurements_span_invariants (fun _ => (50 : ℚ)) (fun i : Nat => i) (fun _ => none) 3 2
     1 { key := 1, index := 1, start := 53, size := 50, «end» := 103 }
     (by norm_num [measurements])⟩

theorem measurements_sizes_ok (e : Nat → ℚ) (k : Nat → κ) (c : κ → Option ℚ)
    (p : ℚ) (N : Nat) :
    ∀ i sp, (measurements e k c p N)[i]? = some sp →
    (∀ m, c (k i) = some m → sp.size = m)
    ∧ (c (k i) = none → sp.size = e i) := by
  induction N with
  | zero => intro i sp h; simp [measurements] at h
  | succ N ih =>
    intro i sp h
    have hlen : i < N + 1 := by
      obtain ⟨hl, -⟩ := List.getElem?_eq_some_iff.mp h
      rw [measurements_length] at hl
      exact hl
    rcases Nat.lt_or_ge i N with hiN | hiN
    · rw [measurements_getElem?_lt e k c p N i hiN] at h
      exact ih i sp h
    · have hiN' : i = N := by omega
      subst hiN'
      rw [measurements_getElem?_self e k c p i] at h
      obtain rfl := Option.some.inj h
      constructor
      · intro m hm
        simp only [hm]
      · intro hm
        simp only [hm]

/-- C3: the derived span size at `i` is the measured-cache entry under
`keyExtractor i` when present, and `estimateSize i` otherwise. -/
theorem measurements_size_resolution (e : Nat → ℚ) (k : Nat → κ) (c : κ → Option ℚ)
    (p : ℚ) (N : Nat) :
    ∀ i sp, (measurements e k c p N)[i]? = some sp →
    (∀ m, c (k i) = some m → sp.size = m)
    ∧ (c (k i) = none → sp.size = e i) :=
  measurements_sizes_ok e k c p N

/-- Witness for C3: a cache entry `25` under key `0` overrides the estimate
at index `0`, while index `1` falls back to the estimate `50`. -/
theorem measurements_size_resolution_app :
    ((measurements (fun _ => (50 : ℚ)) (fun i : Nat => i)
        (fun j => if j = 0 then some 25 else none) 0 2)[0]?
      = some { key := 0, index := 0, start := 0, size := 25, «end» := 25 })
    ∧ ((∀ m, (if (0 : Nat) = 0 then some (25 : ℚ) else none) = some m → (25 : ℚ) = m)
      ∧ ((if (0 : Nat) = 0 then some (25 : ℚ) else none) = none → (25 : ℚ) = 50)) :=
  ⟨by norm_num [measurements],
   measurements_size_resolution (fun _ => (50 : ℚ)) (fun i : Nat => i)
     (fun j => if j = 0 then some 25 else none) 0 2
     0 { key := 0, index := 0, start := 0, size := 25, «end» := 25 }
     (by norm_num [measurements])⟩

/-- Counterexample for C2: with `itemCount = 0`, `paddingStart = 1` and
`paddingEnd = 0` the code reports `totalSize = 0`, not
`paddingStart + paddingEnd = 1`. -/
theorem totalSize_empty_cex :
    measurements (fun _ => (50 : ℚ)) (fun i : Nat => i) (fun _ => none) 1 0 = []
    ∧ totalSize (measurements (fun _ => (50 : ℚ)) (fun i : Nat => i) (fun _ => none) 1 0) 0 0
        = 0
    ∧ (0 : ℚ) ≠ 1 + 0 := by
  refine ⟨rfl, by norm_num [totalSize, measurements], by norm_num⟩

/-- C2 (amended): when `itemCount = 0` the derived spans are empty and
`totalSize` equals `paddingEnd` alone — `paddingStart` is not included,
because `measurements[size - 1]?.end || 0` evaluates to `0` for the empty
sequence. -/
theorem totalSize_empty_amended (e : Nat → ℚ) (k : Nat → κ) (c : κ → Option ℚ)
    (p pe : ℚ) :
    measurements e k c p 0 = []
    ∧ totalSize (measurements e k c p 0) 0 pe = pe := by
  refine ⟨rfl, ?_⟩
  simp [totalSize, measurements]

end MeasurementStore

section Controller

variable {κ : Type}

/-- C6: `scrollToOffset` with align `auto` resolves to `start` when
`toOffset ≤ scrollOffset`, to `end` when `toOffset ≥ scrollOffset +
outerSize` (and not already caught by the first branch), and to `start` in
every remaining case — there is no true no-op branch; the offset passed to
the scroll setter is `toOffset` for `start`, `toOffset - outerSize` for
`end`, and `toOffset - outerSize / 2` for `center`. -/
theorem scrollToOffset_align_spec (toOffset scrollOffset outerSize : ℚ)
    (reason : ScrollReason) :
    (toOffset ≤ scrollOffset →
      scrollToOffset toOffset ScrollAlignment.auto scrollOffset outerSize reason
        = some (toOffset, reason))
    ∧ (scrollOffset < toOffset → scrollOffset + outerSize ≤ toOffset →
      scrollToOffset toOffset ScrollAlignment.auto scrollOffset outerSize reason
        = some (toOffset - outerSize, reason))
    ∧ (scrollOffset < toOffset → toOffset < scrollOffset + outerSize →
      scrollToOffset toOffset ScrollAlignment.auto scrollOffset outerSize reason
        = some (toOffset, reason))
    ∧ scrollToOffset toOffset ScrollAlignment.start scrollOffset outerSize reason
        = some (toOffset, reason)
    ∧ scrollToOffset toOffset ScrollAlignment.«end» scrollOffset outerSize reason
        = some (toOffset - outerSize, reason)
    ∧ scrollToOffset toOffset ScrollAlignment.center scrollOffset outerSize reason
        = some (toOffset - outerSize / 2, reason) := by
  refine ⟨?_, ?_, ?_, ?_, ?_, ?_⟩
  · intro h
    simp [scrollToOffset, h]
  · intro h1 h2
    have h3 : ¬ toOffset ≤ scrollOffset := by linarith
    simp [scrollToOffset, h3, h2]
  · intro h1 h2
    have h3 : ¬ toOffset ≤ scrollOffset := by linarith
    have h4 : ¬ scrollOffset + outerSize ≤ toOffset := by linarith
    simp [scrollToOffset, h3, h4]
  · simp [scrollToOffset]
  · simp [scrollToOffset]
  · simp [scrollToOffset]

/-- Witness for C6: with the snapshot `scrollOffset = 5`, `outerSize = 3`,
targets `0` (at/above fold), `9` (below window) and `6` (inside window). -/
theorem scrollToOffset_align_spec_app :
    scrollToOffset 0 ScrollAlignment.auto 5 3 ScrollReason.ToOffset
        = some (0, ScrollReason.ToOffset)
    ∧ scrollToOffset 9 ScrollAlignment.auto 5 3 ScrollReason.ToOffset
        = some (9 - 3, ScrollReason.ToOffset)
    ∧ scrollToOffset 6 ScrollAlignment.auto 5 3 ScrollReason.ToOffset
        = some (6, ScrollReason.ToOffset) :=
  ⟨(scrollToOffset_align_spec 0 5 3 ScrollReason.ToOffset).1 (by norm_num),
   (scrollToOffset_align_spec 9 5 3 ScrollReason.ToOffset).2.1 (by norm_num) (by norm_num),
   (scrollToOffset_align_spec 6 5 3 ScrollReason.ToOffset).2.2.1 (by norm_num) (by norm_num)⟩

/-- C7: `tryScrollToIndex` clamps its index argument into `[0, size - 1]`
(the looked-up position is `max 0 (min index (size - 1))`, a total
function — nothing is rejected or thrown), and when no measurement exists
at the clamped position it returns silently with no scroll write. -/
theorem tryScrollToIndex_clamp_silent (index : Int) (align : ScrollAlignment)
    (ms : List (Measurement κ)) (scrollOffset outerSize : ℚ) (size : Nat) :
    (1 ≤ size →
      0 ≤ max 0 (min index ((size : Int) - 1))
      ∧ max 0 (min index ((size : Int) - 1)) ≤ (size : Int) - 1)
    ∧ (ms[(max 0 (min index ((size : Int) - 1))).toNat]? = none →
      tryScrollToIndex index align ms scrollOffset outerSize size = none) := by
  constructor
  · intro h
    omega
  · intro h
    simp [tryScrollToIndex, h]

/-- Witness for C7: `index = 5` against a single-item count with an empty
span list is clamped to position `0` and returns silently. -/
theorem tryScrollToIndex_clamp_silent_app :
    (0 ≤ max 0 (min 5 ((1 : Int) - 1)) ∧ max 0 (min 5 ((1 : Int) - 1)) ≤ (1 : Int) - 1)
    ∧ tryScrollToIndex 5 ScrollAlignment.auto ([] : List (Measurement Nat)) 0 0 1
        = none :=
  ⟨(tryScrollToIndex_clamp_silent 5 ScrollAlignment.auto
      ([] : List (Measurement Nat)) 0 0 1).1 (by norm_num),
   (tryScrollToIndex_clamp_silent 5 ScrollAlignment.auto
      ([] : List (Measurement Nat)) 0 0 1).2 (by simp)⟩

/-- C8: when the measurement hook fires with an element whose measured size
differs from the item's current size, the new size is recorded in the
measured cache under the item's key and the index is appended to the
pending list; when additionally the item's start is strictly before the
current scroll offset, the adjusted offset advances by
`delta = measuredSize - item.size` and that offset is written through the
scroll setter with reason `SizeChanged` (and no write happens otherwise). -/
theorem measureRef_records_and_adjusts [DecidableEq κ] (item : Measurement κ)
    (i : Nat) (measuredSize : ℚ) (s : VirtualState κ)
    (hne : measuredSize ≠ item.size) :
    (measureRef item i (some measuredSize) s).measuredCache item.key = some measuredSize
    ∧ (measureRef item i (some measuredSize) s).pendingMeasuredCacheIndexes
        = s.pendingMeasuredCacheIndexes ++ [i]
    ∧ (item.start < s.scrollOffset →
        (measureRef item i (some measuredSize) s).scrollOffsetWithAdjustments
          = s.scrollOffsetWithAdjustments + (measuredSize - item.size)
        ∧ (measureRef item i (some measuredSize) s).scrollWrites
          = s.scrollWrites
            ++ [(s.scrollOffsetWithAdjustments + (measuredSize - item.size),
                 ScrollReason.SizeChanged)])
    ∧ (¬ item.start < s.scrollOffset →
        (measureRef item i (some measuredSize) s).scrollOffsetWithAdjustments
          = s.scrollOffsetWithAdjustments
        ∧ (measureRef item i (some measuredSize) s).scrollWrites = s.scrollWrites) := by
  by_cases hlt : item.start < s.scrollOffset <;>
    simp [measureRef, hne, hlt]

/-- Witness for C8: item with size `50` and start `10` reports size `30`
while the scroll offset is `20`: the cache records `30`, the pending list
gains the index, and the adjusted offset `20 + (30 - 50)` is written with
reason `SizeChanged`. -/
theorem measureRef_records_and_adjusts_app :
    (measureRef { key := (0 : Nat), index := 0, start := 10, size := 50, «end» := 60 } 0
        (some 30)
        { measuredCache := fun _ => none, pendingMeasuredCacheIndexes := [],
          scrollOffset := 20, scrollOffsetWithAdjustments := 20,
          scrollWrites := [] }).measuredCache 0 = some 30
    ∧ (measureRef { key := (0 : Nat), index := 0, start := 10, size := 50, «end» := 60 } 0
        (some 30)
        { measuredCache := fun _ => none, pendingMeasuredCacheIndexes := [],
          scrollOffset := 20, scrollOffsetWithAdjustments := 20,
          scrollWrites := [] }).pendingMeasuredCacheIndexes = [] ++ [0]
    ∧ ((measureRef { key := (0 : Nat), index := 0, start := 10, size := 50, «end» := 60 } 0
        (some 30)
        { measuredCache := fun _ => none, pendingMeasuredCacheIndexes := [],
          scrollOffset := 20, scrollOffsetWithAdjustments := 20,
          scrollWrites := [] }).scrollOffsetWithAdjustments = 20 + (30 - 50)
      ∧ (measureRef { key := (0 : Nat), index := 0, start := 10, size := 50, «end» := 60 } 0
        (some 30)
        { measuredCache := fun _ => none, pendingMeasuredCacheIndexes := [],
          scrollOffset := 20, scrollOffsetWithAdjustments := 20,
          scrollWrites := [] }).scrollWrites
        = [] ++ [(20 + (30 - 50), ScrollReason.SizeChanged)]) :=
  ⟨(measureRef_records_and_adjusts _ 0 30 _ (by norm_num)).1,
   (measureRef_records_and_adjusts _ 0 30 _ (by norm_num)).2.1,
   (measureRef_records_and_adjusts _ 0 30 _ (by norm_num)).2.2.1 (by norm_num)⟩

/-- C10: the measurement hook invoked with a null element, or with an
element whose measured size equals the item's current size, changes
nothing: the cache, the pending list, the offsets and the scroll-write log
are all untouched. -/
theorem measureRef_noop [DecidableEq κ] (item : Measurement κ) (i : Nat)
    (el : Option ℚ) (s : VirtualState κ)
    (h : el = none ∨ el = some item.size) :
    measureRef item i el s = s := by
  rcases h with rfl | rfl
  · rfl
  · simp [measureRef]

/-- Witness for C10: both a null element and a re-measurement equal to the
current size leave the state untouched. -/
theorem measureRef_noop_app :
    measureRef { key := (0 : Nat), index := 0, start := 10, size := 50, «end» := 60 } 0
        none
        { measuredCache := fun _ => none, pendingMeasuredCacheIndexes := [],
          scrollOffset := 20, scrollOffsetWithAdjustments := 20,
          scrollWrites := [] }
      = { measuredCache := fun _ => none, pendingMeasuredCacheIndexes := [],
          scrollOffset := 20, scrollOffsetWithAdjustments := 20,
          scrollWrites := [] }
    ∧ measureRef { key := (0 : Nat), index := 0, start := 10, size := 50, «end» := 60 } 0
        (some 50)
        { measuredCache := fun _ => none, pendingMeasuredCacheIndexes := [],
          scrollOffset := 20, scrollOffsetWithAdjustments := 20,
          scrollWrites := [] }
      = { measuredCache := fun _ => none, pendingMeasuredCacheIndexes := [],
          scrollOffset := 20, scrollOffsetWithAdjustments := 20,
          scrollWrites := [] } :=
  ⟨measureRef_noop _ 0 none _ (Or.inl rfl),
   measureRef_noop _ 0 (some 50) _ (Or.inr rfl)⟩

/-- C9: in the window scroll variant, the reported scroll offset is
`windowScrollPosition - parentStaticOffset` where the static offset is
captured on attachment as `windowScrollPosition + containerRectOffset`;
the setter adds the static offset back exactly for reasons `ToIndex` and
`SizeChanged`, while a `ToOffset` request is applied untranslated. -/
theorem windowScroll_offset_translation (w0 rectOffset w offset : ℚ) :
    windowOnScrollOffset w (parentOffset w0 rectOffset) = w - (w0 + rectOffset)
    ∧ windowScrollToFn offset ScrollReason.ToIndex (parentOffset w0 rectOffset)
        = offset + (w0 + rectOffset)
    ∧ windowScrollToFn offset ScrollReason.SizeChanged (parentOffset w0 rectOffset)
        = offset + (w0 + rectOffset)
    ∧ windowScrollToFn offset ScrollReason.ToOffset (parentOffset w0 rectOffset)
        = offset := by
  refine ⟨rfl, ?_, ?_, ?_⟩ <;> simp [windowScrollToFn, parentOffset]

end Controller

section RangeLocator

variable {κ : Type}

theorem getD_spec [Inhabited κ] (ms : List (Measurement κ)) (n : Nat)
    (sp : Measurement κ) (h : ms[n]? = some sp) : ms.getD n default = sp := by
  rw [List.getD_eq_getElem?_getD, h]
  rfl

theorem getOffset_spec [Inhabited κ] (ms : List (Measurement κ)) (i : Int)
    (sp : Measurement κ) (h : ms[i.toNat]? = some sp) : getOffset ms i = sp.start := by
  unfold getOffset
  rw [getD_spec ms i.toNat sp h]

theorem fnbs_step_lt (low high : Int) (f : Int → ℚ) (v : ℚ) (hle : low ≤ high)
    (hlt : f (Int.tdiv (low + high) 2) < v) :
    findNearestBinarySearch low high f v
      = findNearestBinarySearch (Int.tdiv (low + high) 2 + 1) high f v := by
  rw [findNearestBinarySearch]
  simp [hle, hlt]

theorem fnbs_step_gt (low high : Int) (f : Int → ℚ) (v : ℚ) (hle : low ≤ high)
    (h1 : ¬ f (Int.tdiv (low + high) 2) < v) (h2 : v < f (Int.tdiv (low + high) 2)) :
    findNearestBinarySearch low high f v
      = findNearestBinarySearch low (Int.tdiv (low + high) 2 - 1) f v := by
  rw [findNearestBinarySearch]
  simp [hle, h1, h2]

theorem fnbs_step_eq (low high : Int) (f : Int → ℚ) (v : ℚ) (hle : low ≤ high)
    (h1 : ¬ f (Int.tdiv (low + high) 2) < v) (h2 : ¬ v < f (Int.tdiv (low + high) 2)) :
    findNearestBinarySearch low high f v = Int.tdiv (low + high) 2 := by
  rw [findNearestBinarySearch]
  simp [hle, h1, h2]

theorem fnbs_exit_pos (low high : Int) (f : Int → ℚ) (v : ℚ) (hle : ¬ low ≤ high)
    (hpos : 0 < low) :
    findNearestBinarySearch low high f v = low - 1 := by
  rw [findNearestBinarySearch]
  simp [hle, hpos]

theorem fnbs_exit_zero (low high : Int) (f : Int → ℚ) (v : ℚ) (hle : ¬ low ≤ high)
    (hpos : ¬ 0 < low) :
    findNearestBinarySearch low high f v = 0 := by
  rw [findNearestBinarySearch]
  simp [hle, hpos]

theorem findNearest_basic (hi low high : Int) (f : Int → ℚ) (v : ℚ) :
    0 ≤ hi → 0 ≤ low → low ≤ hi + 1 → high ≤ hi →
    (low = 0 ∨ f (low - 1) ≤ v) →
    0 ≤ findNearestBinarySearch low high f v
    ∧ findNearestBinarySearch low high f v ≤ hi
    ∧ (findNearestBinarySearch low high f v = 0
       ∨ f (findNearestBinarySearch low high f v) ≤ v) := by
  induction low, high, f, v using findNearestBinarySearch.induct with
  | case1 low high f v hle middle currentValue hlt ih =>
    intro hhi h0 h1 h2 hdisj
    have hmb := tdiv2_bounds low high hle
    rw [fnbs_step_lt low high f v hle hlt]
    refine ih hhi (by omega) (by omega) h2 (Or.inr ?_)
    have hm1 : middle + 1 - 1 = middle := by omega
    rw [hm1]
    exact le_of_lt hlt
  | case2 low high f v hle middle currentValue hlt1 hlt2 ih =>
    intro hhi h0 h1 h2 hdisj
    have hmb := tdiv2_bounds low high hle
    rw [fnbs_step_gt low high f v hle hlt1 hlt2]
    exact ih hhi h0 h1 (by omega) hdisj
  | case3 low high f v hle middle currentValue hlt1 hlt2 =>
    intro hhi h0 h1 h2 hdisj
    have hmb := tdiv2_bounds low high hle
    rw [fnbs_step_eq low high f v hle hlt1 hlt2]
    exact ⟨by omega, by omega, Or.inr (not_lt.mp hlt2)⟩
  | case4 low high f v hle hpos =>
    intro hhi h0 h1 h2 hdisj
    rw [fnbs_exit_pos low high f v hle hpos]
    rcases hdisj with h | h
    · omega
    · exact ⟨by omega, by omega, Or.inr h⟩
  | case5 low high f v hle hpos =>
    intro hhi h0 h1 h2 hdisj
    rw [fnbs_exit_zero low high f v hle hpos]
    exact ⟨le_refl 0, hhi, Or.inl rfl⟩

theorem findNearest_greatest_aux (hi low high : Int) (f : Int → ℚ) (v : ℚ) :
    (∀ i j : Int, 0 ≤ i → i < j → j ≤ hi → f i < f j) →
    0 ≤ hi → 0 ≤ low → low ≤ hi + 1 → high ≤ hi →
    (∀ j : Int, 0 ≤ j → j < low → f j ≤ v) →
    (∀ j : Int, high < j → j ≤ hi → v < f j) →
    0 ≤ findNearestBinarySearch low high f v
    ∧ findNearestBinarySearch low high f v ≤ hi
    ∧ ((f (findNearestBinarySearch low high f v) ≤ v
        ∧ ∀ j : Int, 0 ≤ j → j ≤ hi → f j ≤ v →
            j ≤ findNearestBinarySearch low high f v)
       ∨ (findNearestBinarySearch low high f v = 0
          ∧ ∀ j : Int, 0 ≤ j → j ≤ hi → v < f j)) := by
  induction low, high, f, v using findNearestBinarySearch.induct with
  | case1 low high f v hle middle currentValue hlt ih =>
    intro hmono hhi h0 h1 h2 hlow hhigh
    have hmb := tdiv2_bounds low high hle
    rw [fnbs_step_lt low high f v hle hlt]
    refine ih hmono hhi (by omega) (by omega) h2 ?_ hhigh
    intro j hj0 hjm
    rcases eq_or_lt_of_le (by omega : j ≤ middle) with rfl | hjlt
    · exact le_of_lt hlt
    · exact le_of_lt (lt_trans (hmono j middle hj0 hjlt (by omega)) hlt)
  | case2 low high f v hle middle currentValue hlt1 hlt2 ih =>
    intro hmono hhi h0 h1 h2 hlow hhigh
    have hmb := tdiv2_bounds low high hle
    rw [fnbs_step_gt low high f v hle hlt1 hlt2]
    refine ih hmono hhi h0 h1 (by omega) hlow ?_
    intro j hjm hjhi
    rcases eq_or_lt_of_le (by omega : middle ≤ j) with rfl | hjgt
    · exact hlt2
    · exact lt_trans hlt2 (hmono middle j (by omega) hjgt hjhi)
  | case3 low high f v hle middle currentValue hlt1 hlt2 =>
    intro hmono hhi h0 h1 h2 hlow hhigh
    have hmb := tdiv2_bounds low high hle
    rw [fnbs_step_eq low high f v hle hlt1 hlt2]
    refine ⟨by omega, by omega, Or.inl ⟨not_lt.mp hlt2, ?_⟩⟩
    intro j hj0 hjhi hjv
    by_contra hcon
    push_neg at hcon
    have hmj := hmono middle j (by omega) hcon hjhi
    exact hlt1 (lt_of_lt_of_le hmj hjv)
  | case4 low high f v hle hpos =>
    intro hmono hhi h0 h1 h2 hlow hhigh
    rw [fnbs_exit_pos low high f v hle hpos]
    refine ⟨by omega, by omega, Or.inl ⟨hlow (low - 1) (by omega) (by omega), ?_⟩⟩
    intro j hj0 hjhi hjv
    by_contra hcon
    push_neg at hcon
    exact absurd hjv (not_le.mpr (hhigh j (by omega) hjhi))
  | case5 low high f v hle hpos =>
    intro hmono hhi h0 h1 h2 hlow hhigh
    rw [fnbs_exit_zero low high f v hle hpos]
    refine ⟨le_refl 0, hhi, Or.inr ⟨rfl, ?_⟩⟩
    intro j hj0 hjhi
    exact hhigh j (by omega) hjhi

theorem advanceEnd_ge [Inhabited κ] (ms : List (Measurement κ)) (limit : ℚ)
    (sz e0 : Nat) : e0 ≤ advanceEnd ms limit sz e0 := by
  induction e0 using advanceEnd.induct ms limit sz with
  | case1 e h ih =>
    rw [advanceEnd, dif_pos h]
    omega
  | case2 e h =>
    rw [advanceEnd, dif_neg h]

theorem advanceEnd_le [Inhabited κ] (ms : List (Measurement κ)) (limit : ℚ)
    (sz e0 : Nat) (h0 : e0 ≤ sz) : advanceEnd ms limit sz e0 ≤ sz := by
  induction e0 using advanceEnd.induct ms limit sz with
  | case1 e h ih =>
    rw [advanceEnd, dif_pos h]
    exact ih (by omega)
  | case2 e h =>
    rw [advanceEnd, dif_neg h]
    exact h0

theorem advanceEnd_exit [Inhabited κ] (ms : List (Measurement κ)) (limit : ℚ)
    (sz e0 : Nat) :
    ¬ (advanceEnd ms limit sz e0 < sz
       ∧ (ms.getD (advanceEnd ms limit sz e0) default).«end» < limit) := by
  induction e0 using advanceEnd.induct ms limit sz with
  | case1 e h ih =>
    rw [advanceEnd, dif_pos h]
    exact ih
  | case2 e h =>
    rw [advanceEnd, dif_neg h]
    exact h

theorem spans_end_le_start_aux (ms : List (Measurement κ))
    (hcontig : ∀ (j : Nat) (sp sp' : Measurement κ), ms[j]? = some sp →
        ms[j + 1]? = some sp' → sp'.start = sp.«end»)
    (hgrow : ∀ (j : Nat) (sp : Measurement κ), ms[j]? = some sp →
        sp.start ≤ sp.«end») :
    ∀ (d i : Nat) (sp sp' : Measurement κ), ms[i]? = some sp →
      ms[i + d + 1]? = some sp' → sp.«end» ≤ sp'.start := by
  intro d
  induction d with
  | zero =>
    intro i sp sp' hi hi1
    exact le_of_eq (hcontig i sp sp' hi (by simpa using hi1)).symm
  | succ d ih =>
    intro i sp sp' hi hi1
    have hlen : i + d + 1 < ms.length := by
      obtain ⟨hl, -⟩ := List.getElem?_eq_some_iff.mp hi1
      omega
    have hmid : ms[i + d + 1]? = some (ms[i + d + 1]) := List.getElem?_eq_getElem hlen
    have h1 : sp.«end» ≤ (ms[i + d + 1]).start := ih i sp _ hi hmid
    have h2 : (ms[i + d + 1]).start ≤ (ms[i + d + 1]).«end» := hgrow _ _ hmid
    have h3 : sp'.start = (ms[i + d + 1]).«end» := by
      refine hcontig (i + d + 1) _ sp' hmid ?_
      have harith : i + (d + 1) + 1 = (i + d + 1) + 1 := by omega
      rw [← harith]
      exact hi1
    rw [h3]
    linarith

theorem spans_le (ms : List (Measurement κ))
    (hcontig : ∀ (j : Nat) (sp sp' : Measurement κ), ms[j]? = some sp →
        ms[j + 1]? = some sp' → sp'.start = sp.«end»)
    (hgrow : ∀ (j : Nat) (sp : Measurement κ), ms[j]? = some sp →
        sp.start ≤ sp.«end»)
    (i j : Nat) (sp sp' : Measurement κ) (hij : i < j)
    (hi : ms[i]? = some sp) (hj : ms[j]? = some sp') : sp.«end» ≤ sp'.start := by
  have hd : j = i + (j - i - 1) + 1 := by omega
  rw [hd] at hj
  exact spans_end_le_start_aux ms hcontig hgrow (j - i - 1) i sp sp' hi hj

end RangeLocator

section RangeLocatorClaims

variable {κ : Type}

/-- Counterexample for C5: on the span sequence with starts `0, 5, 5`
(monotonically non-decreasing — the zero-sized spans create ties), the
binary search for `scrollOffset = 5` returns index `1`, although the
greatest index whose start is `≤ 5` is `2`. -/
theorem findNearest_greatest_cex :
    getOffset ([⟨0, 0, 0, 5, 5⟩, ⟨1, 1, 5, 0, 5⟩, ⟨2, 2, 5, 0, 5⟩] :
        List (Measurement Nat)) 0
      ≤ getOffset ([⟨0, 0, 0, 5, 5⟩, ⟨1, 1, 5, 0, 5⟩, ⟨2, 2, 5, 0, 5⟩] :
        List (Measurement Nat)) 1
    ∧ getOffset ([⟨0, 0, 0, 5, 5⟩, ⟨1, 1, 5, 0, 5⟩, ⟨2, 2, 5, 0, 5⟩] :
        List (Measurement Nat)) 1
      ≤ getOffset ([⟨0, 0, 0, 5, 5⟩, ⟨1, 1, 5, 0, 5⟩, ⟨2, 2, 5, 0, 5⟩] :
        List (Measurement Nat)) 2
    ∧ getOffset ([⟨0, 0, 0, 5, 5⟩, ⟨1, 1, 5, 0, 5⟩, ⟨2, 2, 5, 0, 5⟩] :
        List (Measurement Nat)) 2 ≤ 5
    ∧ findNearestBinarySearch 0
        ((([⟨0, 0, 0, 5, 5⟩, ⟨1, 1, 5, 0, 5⟩, ⟨2, 2, 5, 0, 5⟩] :
            List (Measurement Nat)).length : Int) - 1)
        (getOffset ([⟨0, 0, 0, 5, 5⟩, ⟨1, 1, 5, 0, 5⟩, ⟨2, 2, 5, 0, 5⟩] :
            List (Measurement Nat))) 5 = 1
    ∧ (1 : Int) < 2 := by
  have hg0 : getOffset ([⟨0, 0, 0, 5, 5⟩, ⟨1, 1, 5, 0, 5⟩, ⟨2, 2, 5, 0, 5⟩] :
      List (Measurement Nat)) 0 = 0 :=
    getOffset_spec _ 0 ⟨0, 0, 0, 5, 5⟩ rfl
  have hg1 : getOffset ([⟨0, 0, 0, 5, 5⟩, ⟨1, 1, 5, 0, 5⟩, ⟨2, 2, 5, 0, 5⟩] :
      List (Measurement Nat)) 1 = 5 :=
    getOffset_spec _ 1 ⟨1, 1, 5, 0, 5⟩ rfl
  have hg2 : getOffset ([⟨0, 0, 0, 5, 5⟩, ⟨1, 1, 5, 0, 5⟩, ⟨2, 2, 5, 0, 5⟩] :
      List (Measurement Nat)) 2 = 5 :=
    getOffset_spec _ 2 ⟨2, 2, 5, 0, 5⟩ rfl
  have hlen : ((([⟨0, 0, 0, 5, 5⟩, ⟨1, 1, 5, 0, 5⟩, ⟨2, 2, 5, 0, 5⟩] :
      List (Measurement Nat)).length : Int) - 1) = 2 := by simp
  refine ⟨by rw [hg0, hg1]; norm_num, by rw [hg1, hg2], by rw [hg2], ?_,
    by norm_num⟩
  rw [hlen]
  have hmid : Int.tdiv (0 + 2) 2 = 1 := by decide
  have h1 : ¬ getOffset ([⟨0, 0, 0, 5, 5⟩, ⟨1, 1, 5, 0, 5⟩, ⟨2, 2, 5, 0, 5⟩] :
      List (Measurement Nat)) (Int.tdiv (0 + 2) 2) < 5 := by
    rw [hmid, hg1]
    norm_num
  have h2 : ¬ (5 : ℚ) < getOffset ([⟨0, 0, 0, 5, 5⟩, ⟨1, 1, 5, 0, 5⟩, ⟨2, 2, 5, 0, 5⟩] :
      List (Measurement Nat)) (Int.tdiv (0 + 2) 2) := by
    rw [hmid, hg1]
    norm_num
  rw [fnbs_step_eq 0 2 _ 5 (by norm_num) h1 h2, hmid]

/-- C5 (amended): for a span sequence whose starts are *strictly*
increasing, the binary search from `calculateRange` returns the greatest
index whose start is `≤ scrollOffset`, and `0` when every start exceeds
`scrollOffset`. (As stated over merely non-decreasing starts the claim is
false — see the counterexample — because the early-equality return of the
search can stop below the last of several equal starts.) -/
theorem findNearest_greatest_strict [Inhabited κ] (ms : List (Measurement κ)) (v : ℚ)
    (hne : 1 ≤ ms.length)
    (hstrict : ∀ (i j : Nat) (sp sp' : Measurement κ), i < j →
        ms[i]? = some sp → ms[j]? = some sp' → sp.start < sp'.start) :
    0 ≤ findNearestBinarySearch 0 ((ms.length : Int) - 1) (getOffset ms) v
    ∧ findNearestBinarySearch 0 ((ms.length : Int) - 1) (getOffset ms) v
        ≤ (ms.length : Int) - 1
    ∧ ((getOffset ms (findNearestBinarySearch 0 ((ms.length : Int) - 1) (getOffset ms) v)
          ≤ v
        ∧ ∀ j : Int, 0 ≤ j → j ≤ (ms.length : Int) - 1 → getOffset ms j ≤ v →
            j ≤ findNearestBinarySearch 0 ((ms.length : Int) - 1) (getOffset ms) v)
       ∨ (findNearestBinarySearch 0 ((ms.length : Int) - 1) (getOffset ms) v = 0
          ∧ ∀ j : Int, 0 ≤ j → j ≤ (ms.length : Int) - 1 → v < getOffset ms j)) := by
  have hmono : ∀ i j : Int, 0 ≤ i → i < j → j ≤ (ms.length : Int) - 1 →
      getOffset ms i < getOffset ms j := by
    intro i j h0 hij hj
    have hiN : i.toNat < ms.length := by omega
    have hjN : j.toNat < ms.length := by omega
    have hi' : ms[i.toNat]? = some (ms[i.toNat]) := List.getElem?_eq_getElem hiN
    have hj' : ms[j.toNat]? = some (ms[j.toNat]) := List.getElem?_eq_getElem hjN
    rw [getOffset_spec ms i _ hi', getOffset_spec ms j _ hj']
    exact hstrict i.toNat j.toNat _ _ (by omega) hi' hj'
  exact findNearest_greatest_aux ((ms.length : Int) - 1) 0 ((ms.length : Int) - 1)
    (getOffset ms) v hmono (by omega) le_rfl (by omega) le_rfl
    (fun j hj0 hjlt => absurd hjlt (by omega))
    (fun j hjgt hjle => absurd hjgt (by omega))

/-- Witness for C5 (amended): strictly increasing starts `0, 50` and
`scrollOffset = 60`: the binary search returns the greatest index `1`. -/
theorem findNearest_greatest_strict_app :
    findNearestBinarySearch 0
      ((([⟨0, 0, 0, 50, 50⟩, ⟨1, 1, 50, 50, 100⟩] : List (Measurement Nat)).length : Int) - 1)
      (getOffset ([⟨0, 0, 0, 50, 50⟩, ⟨1, 1, 50, 50, 100⟩] : List (Measurement Nat))) 60
      = 1 := by
  have hg0 : getOffset ([⟨0, 0, 0, 50, 50⟩, ⟨1, 1, 50, 50, 100⟩] :
      List (Measurement Nat)) 0 = 0 :=
    getOffset_spec _ 0 ⟨0, 0, 0, 50, 50⟩ rfl
  have hg1 : getOffset ([⟨0, 0, 0, 50, 50⟩, ⟨1, 1, 50, 50, 100⟩] :
      List (Measurement Nat)) 1 = 50 :=
    getOffset_spec _ 1 ⟨1, 1, 50, 50, 100⟩ rfl
  have H := findNearest_greatest_strict
      ([⟨0, 0, 0, 50, 50⟩, ⟨1, 1, 50, 50, 100⟩] : List (Measurement Nat)) 60
      (by norm_num)
      (by
        intro i j sp sp' hij hi hj
        have hj2 : j < 2 := by
          obtain ⟨hl, -⟩ := List.getElem?_eq_some_iff.mp hj
          simpa using hl
        interval_cases j
        · omega
        · have hi0 : i = 0 := by omega
          subst hi0
          have e1 : sp = ⟨0, 0, 0, 50, 50⟩ := by
            have hr : ([⟨0, 0, 0, 50, 50⟩, ⟨1, 1, 50, 50, 100⟩] :
                List (Measurement Nat))[0]? = some ⟨0, 0, 0, 50, 50⟩ := rfl
            rw [hr] at hi
            exact (Option.some.inj hi).symm
          have e2 : sp' = ⟨1, 1, 50, 50, 100⟩ := by
            have hr : ([⟨0, 0, 0, 50, 50⟩, ⟨1, 1, 50, 50, 100⟩] :
                List (Measurement Nat))[1]? = some ⟨1, 1, 50, 50, 100⟩ := rfl
            rw [hr] at hj
            exact (Option.some.inj hj).symm
          rw [e1, e2]
          norm_num)
  obtain ⟨h0, hhi, hdisj⟩ := H
  have hlen : ((([⟨0, 0, 0, 50, 50⟩, ⟨1, 1, 50, 50, 100⟩] :
      List (Measurement Nat)).length : Int) - 1) = 1 := by simp
  rw [hlen] at h0 hhi hdisj ⊢
  rcases hdisj with ⟨hle, hgr⟩ | ⟨hr0, hall⟩
  · have h1le := hgr 1 (by norm_num) le_rfl (by rw [hg1]; norm_num)
    omega
  · have h60 := hall 0 le_rfl (by norm_num)
    rw [hg0] at h60
    norm_num at h60

end RangeLocatorClaims

section RangeContainment

variable {κ : Type}

theorem range_components_general [Inhabited κ] (ms : List (Measurement κ))
    (outerSize scrollOffset : ℚ) (hne : 1 ≤ ms.length)
    (hcontig : ∀ (j : Nat) (sp sp' : Measurement κ), ms[j]? = some sp →
        ms[j + 1]? = some sp' → sp'.start = sp.«end»)
    (hgrow : ∀ (j : Nat) (sp : Measurement κ), ms[j]? = some sp →
        sp.start ≤ sp.«end») :
    (findNearestBinarySearch 0 ((ms.length : Int) - 1) (getOffset ms) scrollOffset).toNat
      ≤ advanceEnd ms (scrollOffset + outerSize) (ms.length - 1)
          (findNearestBinarySearch 0 ((ms.length : Int) - 1) (getOffset ms)
            scrollOffset).toNat
    ∧ advanceEnd ms (scrollOffset + outerSize) (ms.length - 1)
          (findNearestBinarySearch 0 ((ms.length : Int) - 1) (getOffset ms)
            scrollOffset).toNat
        ≤ ms.length - 1
    ∧ ∀ (i : Nat) (sp : Measurement κ), ms[i]? = some sp →
        scrollOffset < sp.«end» → sp.start < scrollOffset + outerSize →
        (findNearestBinarySearch 0 ((ms.length : Int) - 1) (getOffset ms)
            scrollOffset).toNat ≤ i
        ∧ i ≤ advanceEnd ms (scrollOffset + outerSize) (ms.length - 1)
              (findNearestBinarySearch 0 ((ms.length : Int) - 1) (getOffset ms)
                scrollOffset).toNat := by
  obtain ⟨hr0, hrhi, hrdisj⟩ := findNearest_basic ((ms.length : Int) - 1) 0
      ((ms.length : Int) - 1) (getOffset ms) scrollOffset (by omega) le_rfl (by omega)
      le_rfl (Or.inl rfl)
  set r := findNearestBinarySearch 0 ((ms.length : Int) - 1) (getOffset ms) scrollOffset
    with hrdef
  set ev := advanceEnd ms (scrollOffset + outerSize) (ms.length - 1) r.toNat with hevdef
  have hsle : r.toNat ≤ ms.length - 1 := by omega
  have h1 : r.toNat ≤ ev := advanceEnd_ge ms (scrollOffset + outerSize) (ms.length - 1)
    r.toNat
  have h2 : ev ≤ ms.length - 1 := advanceEnd_le ms (scrollOffset + outerSize)
    (ms.length - 1) r.toNat hsle
  refine ⟨h1, h2, ?_⟩
  intro i sp hi hso hsv
  have hilen : i < ms.length := by
    obtain ⟨hl, -⟩ := List.getElem?_eq_some_iff.mp hi
    exact hl
  constructor
  · by_contra hcon
    push_neg at hcon
    have hrne : ¬ r = 0 := by omega
    have hfr : getOffset ms r ≤ scrollOffset := by
      rcases hrdisj with h | h
      · exact absurd h hrne
      · exact h
    have hs_lt : r.toNat < ms.length := by omega
    have hsp_s : ms[r.toNat]? = some (ms[r.toNat]) := List.getElem?_eq_getElem hs_lt
    have hstart : getOffset ms r = (ms[r.toNat]).start :=
      getOffset_spec ms r (ms[r.toNat]) hsp_s
    have hle2 : sp.«end» ≤ (ms[r.toNat]).start :=
      spans_le ms hcontig hgrow i r.toNat sp (ms[r.toNat]) hcon hi hsp_s
    rw [hstart] at hfr
    linarith
  · by_contra hcon
    push_neg at hcon
    have helt : ev < ms.length - 1 := by omega
    have hexit := advanceEnd_exit ms (scrollOffset + outerSize) (ms.length - 1) r.toNat
    rw [← hevdef] at hexit
    have hee : ¬ (ms.getD ev default).«end» < scrollOffset + outerSize :=
      fun hlt => hexit ⟨helt, hlt⟩
    have he_lt : ev < ms.length := by omega
    have hsp_e : ms[ev]? = some (ms[ev]) := List.getElem?_eq_getElem he_lt
    rw [getD_spec ms ev (ms[ev]) hsp_e] at hee
    have hle3 : (ms[ev]).«end» ≤ sp.start :=
      spans_le ms hcontig hgrow ev i (ms[ev]) sp hcon hsp_e hi
    linarith [not_lt.mp hee]

/-- C4: for every span sequence derived from `N ≥ 1` items (with nonnegative
sizes, as the data model requires) and every `scrollOffset` and viewport
size, the interval returned by `calculateRange` contains every index `i`
with `Span[i].end > scrollOffset` and `Span[i].start < scrollOffset +
viewportSize`, and no index outside `[0, N - 1]`. -/
theorem calculateRange_containment [Inhabited κ] (est : Nat → ℚ) (keyf : Nat → κ)
    (cache : κ → Option ℚ) (ps : ℚ) (N : Nat) (outerSize scrollOffset : ℚ)
    (hN : 1 ≤ N) (hest : ∀ i, 0 ≤ est i)
    (hcache : ∀ key m, cache key = some m → 0 ≤ m) :
    (calculateRange (measurements est keyf cache ps N) outerSize scrollOffset).1
      ≤ (calculateRange (measurements est keyf cache ps N) outerSize scrollOffset).2
    ∧ (calculateRange (measurements est keyf cache ps N) outerSize scrollOffset).2
        ≤ N - 1
    ∧ ∀ (i : Nat) (sp : Measurement κ),
        (measurements est keyf cache ps N)[i]? = some sp →
        scrollOffset < sp.«end» → sp.start < scrollOffset + outerSize →
        (calculateRange (measurements est keyf cache ps N) outerSize scrollOffset).1 ≤ i
        ∧ i ≤ (calculateRange (measurements est keyf cache ps N) outerSize
            scrollOffset).2 := by
  have hcontig : ∀ (j : Nat) (sp sp' : Measurement κ),
      (measurements est keyf cache ps N)[j]? = some sp →
      (measurements est keyf cache ps N)[j + 1]? = some sp' →
      sp'.start = sp.«end» := by
    intro j sp sp' hj hj1
    obtain ⟨-, -, h3⟩ := measurements_spans_ok est keyf cache ps N (j + 1) sp' hj1
    exact h3 j sp rfl hj
  have hgrow : ∀ (j : Nat) (sp : Measurement κ),
      (measurements est keyf cache ps N)[j]? = some sp → sp.start ≤ sp.«end» := by
    intro j sp hj
    obtain ⟨h1, -, -⟩ := measurements_spans_ok est keyf cache ps N j sp hj
    obtain ⟨hsome, hnone⟩ := measurements_sizes_ok est keyf cache ps N j sp hj
    have hsz : 0 ≤ sp.size := by
      cases hc : cache (keyf j) with
      | some m =>
        rw [hsome m hc]
        exact hcache _ m hc
      | none =>
        rw [hnone hc]
        exact hest j
    rw [h1]
    linarith
  have hgen := range_components_general (measurements est keyf cache ps N)
      outerSize scrollOffset (by rw [measurements_length]; omega) hcontig hgrow
  rw [measurements_length] at hgen
  show (findNearestBinarySearch 0 (((measurements est keyf cache ps N).length : Int) - 1)
          (getOffset (measurements est keyf cache ps N)) scrollOffset).toNat
        ≤ advanceEnd (measurements est keyf cache ps N) (scrollOffset + outerSize)
            ((measurements est keyf cache ps N).length - 1)
            (findNearestBinarySearch 0
              (((measurements est keyf cache ps N).length : Int) - 1)
              (getOffset (measurements est keyf cache ps N)) scrollOffset).toNat
    ∧ advanceEnd (measurements est keyf cache ps N) (scrollOffset + outerSize)
          ((measurements est keyf cache ps N).length - 1)
          (findNearestBinarySearch 0
            (((measurements est keyf cache ps N).length : Int) - 1)
            (getOffset (measurements est keyf cache ps N)) scrollOffset).toNat
        ≤ N - 1
    ∧ ∀ (i : Nat) (sp : Measurement κ),
        (measurements est keyf cache ps N)[i]? = some sp →
        scrollOffset < sp.«end» → sp.start < scrollOffset + outerSize →
        (findNearestBinarySearch 0
            (((measurements est keyf cache ps N).length : Int) - 1)
            (getOffset (measurements est keyf cache ps N)) scrollOffset).toNat ≤ i
        ∧ i ≤ advanceEnd (measurements est keyf cache ps N) (scrollOffset + outerSize)
              ((measurements est keyf cache ps N).length - 1)
              (findNearestBinarySearch 0
                (((measurements est keyf cache ps N).length : Int) - 1)
                (getOffset (measurements est keyf cache ps N)) scrollOffset).toNat
  rw [measurements_length]
  exact hgen

/-- Witness for C4: one item of estimated size `50`, viewport `100`,
scroll offset `0`. -/
theorem calculateRange_containment_app :
    (calculateRange (measurements (fun _ => (50 : ℚ)) (fun i : Nat => i)
        (fun _ => none) 0 1) 100 0).1
      ≤ (calculateRange (measurements (fun _ => (50 : ℚ)) (fun i : Nat => i)
        (fun _ => none) 0 1) 100 0).2
    ∧ (calculateRange (measurements (fun _ => (50 : ℚ)) (fun i : Nat => i)
        (fun _ => none) 0 1) 100 0).2 ≤ 1 - 1
    ∧ ∀ (i : Nat) (sp : Measurement Nat),
        (measurements (fun _ => (50 : ℚ)) (fun i : Nat => i) (fun _ => none) 0 1)[i]?
          = some sp →
        (0 : ℚ) < sp.«end» → sp.start < 0 + 100 →
        (calculateRange (measurements (fun _ => (50 : ℚ)) (fun i : Nat => i)
            (fun _ => none) 0 1) 100 0).1 ≤ i
        ∧ i ≤ (calculateRange (measurements (fun _ => (50 : ℚ)) (fun i : Nat => i)
            (fun _ => none) 0 1) 100 0).2 :=
  calculateRange_containment (fun _ => (50 : ℚ)) (fun i : Nat => i) (fun _ => none)
    0 1 100 0 (by norm_num) (fun i => by norm_num) (fun key m h => by cases h)

end RangeContainment
